import Mathlib

/-!
Verification of the GNS desktop Proof-of-Trajectory core against its
natural-language specification.

The Rust sources are embedded shallowly:

* Rust `String` values become Lean `String`; the byte sequences fed to the
  hash functions are UTF-8 bytes, modelled as `List Nat`.  Every string that
  reaches a hasher in the verified claims is ASCII, for which
  `s.data.map Char.toNat` is exactly its UTF-8 byte sequence.
* The `sha2` crate's SHA-256 (an external dependency of the repository) is
  implemented in full below over `Nat` with explicit reduction mod `2 ^ 32`,
  and is checked against the standard test vectors.
* `f32` / `f64` arithmetic in the trust scorer is modelled over `ℚ`.  At every
  concrete input appearing in a claim the floating computation is exact (or
  its rounding error is orders of magnitude below the nearest decision
  threshold), so the rational model agrees with the compiled code there.
* Fallible Rust functions returning `Result` become `Except`; external
  collaborators (storage, network, the ed25519 / x25519 primitives of the
  `dalek` crates, the `chrono` clock) enter as explicit value or function
  parameters.
* Iteration whose termination Rust gets from mutable state is given an
  explicit fuel argument that provably dominates the iteration count, keeping
  every definition kernel-computable.
-/

set_option maxRecDepth 200000

set_option maxHeartbeats 1000000

/-! ## Bytes, hex encoding and decoding -/

/-- UTF-8 bytes of an ASCII string (every hashed string in the claims under
verification is ASCII, where UTF-8 coincides with the code points). -/
def strBytes (s : String) : List Nat := s.data.map Char.toNat

/-- Lower-case hex digit for a nibble, as produced by the `hex` crate. -/
def hexDigit (n : Nat) : Char := if n < 10 then Char.ofNat (48 + n) else Char.ofNat (87 + n)

/-- Lower-case hex encoding of a byte list (`hex::encode`). -/
def hexEncode (bs : List Nat) : String :=
  String.mk (bs.flatMap (fun b => [hexDigit (b / 16), hexDigit (b % 16)]))

/-- Value of one hex digit accepting both cases, `none` on a non-hex character
(`hex` crate semantics). -/
def hexVal (c : Char) : Option Nat :=
  if 48 ≤ c.toNat ∧ c.toNat ≤ 57 then some (c.toNat - 48)
  else if 97 ≤ c.toNat ∧ c.toNat ≤ 102 then some (c.toNat - 87)
  else if 65 ≤ c.toNat ∧ c.toNat ≤ 70 then some (c.toNat - 55)
  else none

/-- Hex decoding of a character list: fails on odd length or any non-hex
character, exactly as `hex::decode`. -/
def hexDecodeChars : List Char → Option (List Nat)
  | [] => some []
  | [_] => none
  | c1 :: c2 :: rest =>
    match hexVal c1, hexVal c2, hexDecodeChars rest with
    | some h, some l, some bs => some ((16 * h + l) :: bs)
    | _, _, _ => none

/-- Rust `hex::decode` on a string. -/
def hexDecode (s : String) : Option (List Nat) := hexDecodeChars s.data

/-! ## SHA-256 (the `sha2` crate dependency), over `Nat` mod `2 ^ 32` -/

namespace Sha256

/-- Reduce mod `2 ^ 32`. -/
def w32 (x : Nat) : Nat := x % 4294967296

/-- Bitwise complement within 32 bits (for `x < 2 ^ 32`). -/
def not32 (x : Nat) : Nat := 4294967295 - x

/-- Right rotation of a 32-bit word. -/
def rotr (x n : Nat) : Nat := (x >>> n) + (x % (2 ^ n)) * (2 ^ (32 - n))

/-- Big sigma 0. -/
def bsig0 (x : Nat) : Nat := (rotr x 2) ^^^ (rotr x 13) ^^^ (rotr x 22)

/-- Big sigma 1. -/
def bsig1 (x : Nat) : Nat := (rotr x 6) ^^^ (rotr x 11) ^^^ (rotr x 25)

/-- Small sigma 0. -/
def ssig0 (x : Nat) : Nat := (rotr x 7) ^^^ (rotr x 18) ^^^ (x >>> 3)

/-- Small sigma 1. -/
def ssig1 (x : Nat) : Nat := (rotr x 17) ^^^ (rotr x 19) ^^^ (x >>> 10)

/-- Choice function. -/
def ch (x y z : Nat) : Nat := (x &&& y) ^^^ ((not32 x) &&& z)

/-- Majority function. -/
def maj (x y z : Nat) : Nat := (x &&& y) ^^^ (x &&& z) ^^^ (y &&& z)

/-- The 64 round constants of FIPS 180-4. -/
def K : List Nat :=
  [1116352408, 1899447441, 3049323471, 3921009573, 961987163,
   1508970993, 2453635748, 2870763221, 3624381080, 310598401,
   607225278, 1426881987, 1925078388, 2162078206, 2614888103,
   3248222580, 3835390401, 4022224774, 264347078, 604807628,
   770255983, 1249150122, 1555081692, 1996064986, 2554220882,
   2821834349, 2952996808, 3210313671, 3336571891, 3584528711,
   113926993, 338241895, 666307205, 773529912, 1294757372,
   1396182291, 1695183700, 1986661051, 2177026350, 2456956037,
   2730485921, 2820302411, 3259730800, 3345764771, 3516065817,
   3600352804, 4094571909, 275423344, 430227734, 506948616,
   659060556, 883997877, 958139571, 1322822218, 1537002063,
   1747873779, 1955562222, 2024104815, 2227730452, 2361852424,
   2428436474, 2756734187, 3204031479, 3329325298]

/-- The initial hash value. -/
def iv : List Nat :=
  [1779033703, 3144134277, 1013904242,
   2773480762, 1359893119, 2600822924,
   528734635, 1541459225]

/-- Big-endian 8-byte encoding of the bit length. -/
def be64 (x : Nat) : List Nat :=
  [x >>> 56 % 256, x >>> 48 % 256, x >>> 40 % 256, x >>> 32 % 256,
   x >>> 24 % 256, x >>> 16 % 256, x >>> 8 % 256, x % 256]

/-- Message padding of FIPS 180-4 section 5.1.1. -/
def pad (m : List Nat) : List Nat :=
  let len := m.length
  let zeros := (119 - len % 64) % 64
  m ++ [128] ++ List.replicate zeros 0 ++ be64 (8 * len)

/-- Group 4 consecutive big-endian bytes into one 32-bit word. -/
def toWords : List Nat → List Nat
  | b0 :: b1 :: b2 :: b3 :: rest => (((b0 * 256 + b1) * 256 + b2) * 256 + b3) :: toWords rest
  | _ => []

/-- Extend the message schedule by `fuel` further words. -/
def scheduleFrom (ws : List Nat) : Nat → List Nat
  | 0 => ws
  | fuel + 1 =>
    let n := ws.length
    let nw := w32 (ssig1 (ws.getD (n - 2) 0) + ws.getD (n - 7) 0 + ssig0 (ws.getD (n - 15) 0) +
      ws.getD (n - 16) 0)
    scheduleFrom (ws ++ [nw]) fuel

/-- The eight working variables. -/
structure St where
  a : Nat
  b : Nat
  c : Nat
  d : Nat
  e : Nat
  f : Nat
  g : Nat
  h : Nat

/-- One compression round. -/
def round (st : St) (kw : Nat × Nat) : St :=
  let t1 := w32 (st.h + bsig1 st.e + ch st.e st.f st.g + kw.1 + kw.2)
  let t2 := w32 (bsig0 st.a + maj st.a st.b st.c)
  ⟨w32 (t1 + t2), st.a, st.b, st.c, w32 (st.d + t1), st.e, st.f, st.g⟩

/-- Compress one 64-byte block into the running hash (eight words). -/
def compress (h : List Nat) (block : List Nat) : List Nat :=
  let ws := scheduleFrom (toWords block) 48
  let st0 : St := ⟨h.getD 0 0, h.getD 1 0, h.getD 2 0, h.getD 3 0,
                   h.getD 4 0, h.getD 5 0, h.getD 6 0, h.getD 7 0⟩
  let st := (K.zip ws).foldl round st0
  [w32 (st0.a + st.a), w32 (st0.b + st.b), w32 (st0.c + st.c), w32 (st0.d + st.d),
   w32 (st0.e + st.e), w32 (st0.f + st.f), w32 (st0.g + st.g), w32 (st0.h + st.h)]

/-- Split into 64-byte blocks; the fuel argument (instantiated with the list
length, which dominates the block count) keeps the recursion structural. -/
def blocksGo : Nat → List Nat → List (List Nat)
  | 0, _ => []
  | _ + 1, [] => []
  | fuel + 1, l => l.take 64 :: blocksGo fuel (l.drop 64)

/-- Serialize the eight hash words to 32 big-endian bytes. -/
def wordsToBytes : List Nat → List Nat
  | [] => []
  | w :: rest =>
    (w >>> 24 % 256) :: (w >>> 16 % 256) :: (w >>> 8 % 256) :: (w % 256) :: wordsToBytes rest

/-- SHA-256 of a byte list.  Checked below against the standard test vectors. -/
def sha256 (m : List Nat) : List Nat :=
  let p := pad m
  wordsToBytes ((blocksGo p.length p).foldl compress iv)

end Sha256

/-- Hash bytes with SHA-256 and hex-encode, as `CryptoEngine::sha256`
(crates/tauri-plugin-gns/src/core/crypto.rs). -/
def CryptoEngine.sha256 (data : List Nat) : String := hexEncode (Sha256.sha256 data)

/-- FIPS 180-4 test vector: the digest of "abc". -/
theorem sha256_vector_abc :
    CryptoEngine.sha256 (strBytes "abc") =
      "ba7816bf8f01cfea414140de5dae2223b00361a396177a9cb410ff61f20015ad" := by
  decide

/-- FIPS 180-4 test vector: the digest of the empty message. -/
theorem sha256_vector_empty :
    CryptoEngine.sha256 [] =
      "e3b0c44298fc1c149afbf4c8996fb92427ae41e4649b934ca495991b7852b855" := by
  decide

/-! ## Breadcrumb model (crates/tauri-plugin-gns/src/models/breadcrumb.rs) -/

/-- Location source enumeration. -/
inductive LocationSource where
  | gps
  | wifi
  | cell
  | network
  | manual
  | fused
  deriving DecidableEq

/-- One breadcrumb record, field for field as the Rust struct
(accuracy, an `Option<f64>`, is modelled over `ℚ`). -/
structure Breadcrumb where
  id : String
  h3_index : String
  h3_resolution : Nat
  timestamp : String
  prev_hash : Option String
  hash : String
  signature : String
  source : LocationSource
  accuracy : Option ℚ
  published : Bool

/-- Recompute the hash of a breadcrumb from its own stored fields
(`Breadcrumb::calculate_hash`): the hasher is fed the `h3_index`, the
`timestamp` string, and the `prev_hash` only when present, with no
separators. -/
def Breadcrumb.calculate_hash (b : Breadcrumb) : String :=
  CryptoEngine.sha256 (strBytes b.h3_index ++ strBytes b.timestamp ++
    (match b.prev_hash with
     | some prev => strBytes prev
     | none => []))

/-- Check the stored hash against the recomputation (`Breadcrumb::verify_hash`). -/
def Breadcrumb.verify_hash (b : Breadcrumb) : Bool :=
  b.hash == b.calculate_hash

/-! ## Breadcrumb collection (crates/tauri-plugin-gns/src/commands/trajectory.rs)

The command reads the active identity from storage, converts the raw
coordinate to an H3 cell through the external `h3o` crate, asks storage for
the last breadcrumb hash, and signs through the ed25519 engine.  The
embedding takes the outcomes of those collaborator calls as parameters: the
cell string, the two renderings of the `chrono` timestamp that the code
actually uses (milliseconds for the hash preimage, RFC 3339 for the stored
record), the stored last hash, the fresh id, and the signing function. -/

/-- The two projections of `chrono::Utc::now()` that `collect_breadcrumb`
uses: `timestamp_millis()` and `to_rfc3339()`. -/
structure UtcTime where
  millis : Int
  rfc3339 : String

/-- The breadcrumb constructed and persisted by `collect_breadcrumb`
(trajectory.rs lines 161-194): the preimage is
`h3_index | millis | prev-or-genesis` with pipe separators, the stored
timestamp is the RFC 3339 rendering, and the stored `prev_hash` is
`Some` of the value substituted into the preimage. -/
def collect_breadcrumb (cell : String) (res : Nat) (now : UtcTime) (newId : String)
    (lastHash : Option String) (sign : String → String) (src : LocationSource)
    (acc : Option ℚ) : Breadcrumb :=
  let prev_hash := lastHash.getD "genesis"
  let hash_input := cell ++ "|" ++ toString now.millis ++ "|" ++ prev_hash
  let hash := CryptoEngine.sha256 (strBytes hash_input)
  { id := newId
    h3_index := cell
    h3_resolution := res
    timestamp := now.rfc3339
    prev_hash := some prev_hash
    hash := hash
    signature := sign hash
    source := src
    accuracy := acc
    published := false }

/-- The storage helper `get_last_breadcrumb_hash` as written in the source:
it always returns `Ok(None)`. -/
def get_last_breadcrumb_hash : Option String := none

/-! ## Merkle root (crates/tauri-plugin-gns/src/models/breadcrumb.rs, lines 218-241) -/

/-- Hash one `chunks(2)` chunk: the hasher is fed the first element and, when
the chunk has two elements, the second as well (incremental updates hash the
concatenated bytes).  An unpaired last element is therefore hashed alone. -/
def merkleCombine : String × Option String → String
  | (a, some b) => CryptoEngine.sha256 (strBytes a ++ strBytes b)
  | (a, none) => CryptoEngine.sha256 (strBytes a)

/-- Rust `chunks(2)` over a list. -/
def chunks2 : List String → List (String × Option String)
  | [] => []
  | [a] => [(a, none)]
  | a :: b :: rest => (a, some b) :: chunks2 rest

/-- One pass of the `while hashes.len() > 1` loop body. -/
def merkleStep (hashes : List String) : List String :=
  (chunks2 hashes).map merkleCombine

/-- The `while hashes.len() > 1` loop.  The fuel argument is instantiated
with the initial list length, which dominates the number of iterations
(each pass at least halves a list of length two or more). -/
def merkleLoopGo : Nat → List String → List String
  | 0, hashes => hashes
  | fuel + 1, hashes =>
    if hashes.length > 1 then merkleLoopGo fuel (merkleStep hashes) else hashes

/-- Sixty-four zero characters, `"0".repeat(64)`. -/
def zeros64 : String := String.mk (List.replicate 64 '0')

/-- `BreadcrumbBlock::calculate_merkle_root`: all-zero root for an empty
input, otherwise iterate pairwise hashing until one hash remains and pop it. -/
def BreadcrumbBlock.calculate_merkle_root (breadcrumbs : List Breadcrumb) : String :=
  if breadcrumbs.isEmpty then zeros64
  else
    let hashes := breadcrumbs.map (fun b => b.hash)
    (merkleLoopGo hashes.length hashes).getLastD zeros64

/-! ## Epoch publication (crates/tauri-plugin-gns/src/commands/trajectory.rs, lines 209-301) -/

/-- The error kinds reached by the embedded commands
(crates/tauri-plugin-gns/src/error.rs). -/
inductive GnsError where
  | IdentityNotFound (msg : String)
  | InvalidInput (msg : String)
  | InvalidHandle (msg : String)
  | HandleUnavailable (msg : String)
  | InsufficientBreadcrumbs (msg : String)
  | InsufficientTrust (msg : String)
  deriving DecidableEq

/-- Epoch header, field for field as the Rust struct. -/
structure EpochHeader where
  identity : String
  epoch_index : Nat
  start_time : String
  end_time : String
  merkle_root : String
  block_count : Nat
  prev_epoch_hash : Option String
  signature : String
  epoch_hash : String

/-- The storage helper `get_last_epoch_hash` as written in the source: it
always returns `Ok(None)`. -/
def get_last_epoch_hash : Option String := none

/-- The `publish_epoch` command.  Parameters stand for the collaborator
outputs the code consumes: `count` is `storage.get_breadcrumb_count` (the
total stored count), `cfgMin` is `config.min_breadcrumbs_for_epoch`,
`pk` the active identity's public key, `startStr`/`endStr` the two
`chrono` RFC 3339 renderings (now minus seven days, and now), with
`startSecs`/`endSecs` their re-parsed second timestamps, and `sign` the
ed25519 signing call.  Everything after the count gate follows the source
lines 242-300 exactly: the epoch index is `count / cfgMin`, the merkle root
is the placeholder digest of `epoch-{pk}-{index}`, the block count is
`max (count / 10) 1`, and no breadcrumb is consumed or marked published. -/
def publish_epoch (cfgMin : Nat) (count : Nat) (pk : String) (startStr endStr : String)
    (startSecs endSecs : Int) (sign : String → String) : Except GnsError EpochHeader :=
  if count < cfgMin then
    .error (.InsufficientBreadcrumbs
      ("Need " ++ toString cfgMin ++ " breadcrumbs, have " ++ toString count))
  else
    let epoch_index := count / cfgMin
    let prev_epoch_hash := get_last_epoch_hash
    let merkle_root := CryptoEngine.sha256
      (strBytes ("epoch-" ++ pk ++ "-" ++ toString epoch_index))
    let block_count := max (count / 10) 1
    let epoch_data := pk ++ "|" ++ toString epoch_index ++ "|" ++ toString startSecs ++ "|" ++
      toString endSecs ++ "|" ++ merkle_root ++ "|" ++ prev_epoch_hash.getD "genesis"
    let epoch_hash := CryptoEngine.sha256 (strBytes epoch_data)
    .ok { identity := pk
          epoch_index := epoch_index
          start_time := startStr
          end_time := endStr
          merkle_root := merkle_root
          block_count := block_count
          prev_epoch_hash := prev_epoch_hash
          signature := sign epoch_hash
          epoch_hash := epoch_hash }

/-! ## Trust scoring (crates/tauri-plugin-gns/src/commands/trust.rs and
models/trust.rs), floating-point arithmetic modelled over `ℚ` -/

/-- Component scores (`TrustComponents`). -/
structure TrustComponents where
  trajectory_quality : ℚ
  temporal_consistency : ℚ
  chain_integrity : ℚ
  epoch_reliability : ℚ
  geographic_diversity : ℚ

/-- Trust tiers. -/
inductive TrustTier where
  | Seedling
  | Rooted
  | Established
  | Trusted
  | Verified
  deriving DecidableEq

/-- Rust `score as u32`: truncation toward zero, negatives saturating to 0. -/
def ratAsU32 (q : ℚ) : Nat := if q ≤ 0 then 0 else min (Int.toNat ⌊q⌋) 4294967295

/-- `TrustTier::from_score` (models/trust.rs lines 78-86). -/
def TrustTier.from_score (score : ℚ) : TrustTier :=
  let n := ratAsU32 score
  if n ≤ 19 then .Seedling
  else if n ≤ 39 then .Rooted
  else if n ≤ 59 then .Established
  else if n ≤ 79 then .Trusted
  else .Verified

/-- `calculate_trajectory_quality` (trust.rs lines 211-222). -/
def calculate_trajectory_quality (breadcrumb_count account_age_days : Nat) : ℚ :=
  if account_age_days = 0 then 0
  else
    let expected := account_age_days * 10
    let ratio := min ((breadcrumb_count : ℚ) / (expected : ℚ)) 2
    min (ratio * 50) 100

/-- `calculate_temporal_consistency` (trust.rs lines 224-245). -/
def calculate_temporal_consistency (breadcrumb_count account_age_days : Nat) : ℚ :=
  if account_age_days < 7 then min ((breadcrumb_count : ℚ) / 10) 30
  else
    let daily_avg := (breadcrumb_count : ℚ) / (account_age_days : ℚ)
    if 5 ≤ daily_avg then 100
    else if 2 ≤ daily_avg then 80
    else if 1 ≤ daily_avg then 60
    else if 1 / 2 ≤ daily_avg then 40
    else 20

/-- `calculate_geographic_diversity` (trust.rs lines 247-256); the literals
2.5, 62.5, 92.5 and 0.15 are exact in `f32`. -/
def calculate_geographic_diversity (unique_locations : Nat) : ℚ :=
  if unique_locations ≤ 5 then (unique_locations : ℚ) * 5
  else if unique_locations ≤ 20 then 25 + ((unique_locations : ℚ) - 5) * (5 / 2)
  else if unique_locations ≤ 50 then 125 / 2 + ((unique_locations : ℚ) - 20) * 1
  else if unique_locations ≤ 100 then 185 / 2 + ((unique_locations : ℚ) - 50) * (3 / 20)
  else 100

/-- The component scores as assembled by the scoring paths (trust.rs lines
46-58 and 265-277): the chain-integrity component is the constant `100.0`
("Assume valid chains (verified on collection)") and never consults any
chain verification. -/
def trust_components (breadcrumb_count account_age_days unique_locations epoch_count : Nat) :
    TrustComponents :=
  { trajectory_quality := calculate_trajectory_quality breadcrumb_count account_age_days
    temporal_consistency := calculate_temporal_consistency breadcrumb_count account_age_days
    chain_integrity := 100
    epoch_reliability := if epoch_count > 0 then 80 else 0
    geographic_diversity := calculate_geographic_diversity unique_locations }

/-- The weighted composite (trust.rs lines 61-67): weights 0.25, 0.20, 0.25,
0.15, 0.15, capped at 100. -/
def calculated_score (c : TrustComponents) : ℚ :=
  min (c.trajectory_quality * (1 / 4) + c.temporal_consistency * (1 / 5) +
    c.chain_integrity * (1 / 4) + c.epoch_reliability * (3 / 20) +
    c.geographic_diversity * (3 / 20)) 100

/-- The derived trust score record (models/trust.rs `TrustScore`). -/
structure TrustScore where
  score : ℚ
  tier : TrustTier
  components : TrustComponents
  calculated_at : String
  breadcrumb_count : Nat
  account_age_days : Nat
  unique_locations : Nat
  epoch_count : Nat

/-- Rust `(breadcrumb_count as f32 * 0.3).min(1000.0) as u32` over `ℚ`
(exact at every concrete count evaluated in the claims). -/
def estimated_unique_locations (breadcrumb_count : Nat) : Nat :=
  min (Int.toNat ⌊(breadcrumb_count : ℚ) * (3 / 10)⌋) 1000

/-- `get_trust_score_for_identity` (trust.rs lines 258-299): account age is
the placeholder 30, locations and epochs are estimated from the breadcrumb
count, the chain-integrity component is the constant 100, and the stored
score wins when positive. -/
def get_trust_score_for_identity (breadcrumb_count : Nat) (stored_trust_score : ℚ)
    (now : String) : TrustScore :=
  let account_age_days := 30
  let uniq := estimated_unique_locations breadcrumb_count
  let epochs := breadcrumb_count / 100
  let components := trust_components breadcrumb_count account_age_days uniq epochs
  let score := if stored_trust_score > 0 then stored_trust_score
               else calculated_score components
  { score := score
    tier := TrustTier.from_score score
    components := components
    calculated_at := now
    breadcrumb_count := breadcrumb_count
    account_age_days := account_age_days
    unique_locations := uniq
    epoch_count := epochs }

/-! ## Chain verification, modelled from the specification -/

/-- Modelled from the spec: `verifyChain` (spec section 4.2).  The repository
declares a `verify_chain` command (crates/tauri-plugin-gns/build.rs) but its
implementation is not under src/; per the spec it "recomputes each hash from
its fields and confirms linkage to the predecessor, and verifies each
signature; returns the first invalid index on failure".  Hash recomputation
is the in-source `Breadcrumb::verify_hash`; signature verification (external
ed25519) is the `sigOk` parameter; linkage compares the stored `prev_hash`
with the predecessor's hash (`none` expected for the first element). -/
def verifyChain (sigOk : Breadcrumb → Bool) :
    List Breadcrumb → Option String → Nat → Except Nat Unit
  | [], _, _ => .ok ()
  | b :: rest, prev, i =>
    if b.verify_hash && (b.prev_hash == prev) && sigOk b then
      verifyChain sigOk rest (some b.hash) (i + 1)
    else
      .error i

/-! ## Concrete inputs used by the evaluation theorems -/

/-- A breadcrumb whose stored hash field was tampered to all zeros, so hash
recomputation cannot match (used to exhibit a chain failing verification). -/
def tamperedCrumb : Breadcrumb :=
  { id := "b0"
    h3_index := "87283472bffffff"
    h3_resolution := 7
    timestamp := "2025-01-01T00:00:00+00:00"
    prev_hash := none
    hash := zeros64
    signature := "sig"
    source := LocationSource.gps
    accuracy := none
    published := false }

/-- Claim C1: the claim states that the chain-integrity component of every
trust-score computation is 100 exactly when `verifyChain` passes and 0
otherwise, and in particular 0 for a stored chain failing verification.  The
code instead hard-codes the component to 100 and never invokes chain
verification at scoring time: the concrete tampered chain below fails
`verifyChain` at index 0, yet the scoring path yields a chain-integrity
component of 100 — for this identity and for every input. -/
theorem c1_chain_integrity_constant_despite_failing_chain :
    verifyChain (fun _ => true) [tamperedCrumb] none 0 = .error 0 ∧
    (get_trust_score_for_identity 1 0 "2025-01-01T00:00:00+00:00").components.chain_integrity
      = 100 ∧
    ∀ (c : Nat) (t : ℚ) (s : String),
      (get_trust_score_for_identity c t s).components.chain_integrity = 100 := by
  refine ⟨by rfl, rfl, fun c t s => rfl⟩

/-- Claim C3: the claim states that `publish` with 250 unpublished
breadcrumbs, a minimum of 100 and block size 10 produces one epoch over the
oldest 100 breadcrumbs as 10 blocks, with epoch index 0, leaving 150
unpublished.  Evaluating the code at that input: the epoch index is
`250 / 100 = 2`, the block count is `max (250 / 10) 1 = 25`, the merkle root
is the placeholder digest of `epoch-{pk}-2`, and the command consumes and
marks nothing (its stub helpers and absent mark-published step are embedded
above).  Only `prev_epoch_hash = none` agrees with the claim. -/
theorem c3_publish_epoch_stub_output :
    (publish_epoch 100 250 "pk" "2025-01-01T00:00:00+00:00" "2025-01-08T00:00:00+00:00"
        1735689600 1736294400 (fun _ => "sig")).map
      (fun e => (e.epoch_index, e.block_count, e.prev_epoch_hash)) =
    .ok (2, 25, none) := by
  rfl

/-- Claim C4: the claim states that every breadcrumb returned by
`collect_breadcrumb` satisfies `Breadcrumb::verify_hash`.  It does not: the
creation path hashes `h3_index|millis|prev` with pipe separators and the
millisecond timestamp, while `verify_hash` recomputes over the `h3_index`,
the RFC 3339 timestamp string and the raw `prev_hash` with no separators, so
the two digests differ.  Evaluated here at a concrete collection (the Unix
epoch instant, empty chain). -/
theorem c4_collected_breadcrumb_fails_verify_hash :
    (collect_breadcrumb "87283472bffffff" 7 ⟨0, "1970-01-01T00:00:00+00:00"⟩
      "f47ac10b-58cc-4372-a567-0e02b2c3d479" get_last_breadcrumb_hash (fun _ => "sig")
      LocationSource.gps none).verify_hash = false := by
  decide

/-- Claim C5 counterexample: the claim states that the first breadcrumb of a
chain stores `prevHash = None` and that "genesis" never appears as the stored
value.  Evaluating `collect_breadcrumb` on an empty chain (last hash `none`),
the stored `prev_hash` is `some "genesis"`, not `none`. -/
theorem c5_counterexample_first_crumb_stores_genesis :
    (collect_breadcrumb "87283472bffffff" 7 ⟨0, "1970-01-01T00:00:00+00:00"⟩
      "f47ac10b-58cc-4372-a567-0e02b2c3d479" none (fun _ => "sig")
      LocationSource.gps none).prev_hash = some "genesis" := by
  rfl

/-- Claim C5 as amended: when the chain is empty the sentinel "genesis" is
substituted for the missing predecessor before hashing and the breadcrumb is
stored with `prev_hash = some "genesis"` — the sentinel appears both inside
the hash preimage and as the stored value. -/
theorem c5_amended_genesis_is_stored (cell : String) (res : Nat) (now : UtcTime)
    (newId : String) (sign : String → String) (src : LocationSource) (acc : Option ℚ) :
    (collect_breadcrumb cell res now newId none sign src acc).prev_hash = some "genesis" ∧
    (collect_breadcrumb cell res now newId none sign src acc).hash =
      CryptoEngine.sha256 (strBytes (cell ++ "|" ++ toString now.millis ++ "|" ++ "genesis")) :=
  ⟨rfl, rfl⟩

/-- Claim C7: at breadcrumb count 70, account age 7 days, 21 unique
locations, no epochs and a valid chain, the component scores are 50, 100,
100, 0 and 63.5, the weighted composite is 67.025 (approximately 67.0), and
the tier of that score is Trusted. -/
theorem c7_trust_score_at_spec_inputs :
    calculate_trajectory_quality 70 7 = 50 ∧
    calculate_temporal_consistency 70 7 = 100 ∧
    (trust_components 70 7 21 0).chain_integrity = 100 ∧
    (trust_components 70 7 21 0).epoch_reliability = 0 ∧
    calculate_geographic_diversity 21 = 127 / 2 ∧
    calculated_score (trust_components 70 7 21 0) = 2681 / 40 ∧
    (2681 : ℚ) / 40 - 67 = 1 / 40 ∧
    TrustTier.from_score (2681 / 40) = TrustTier.Trusted := by
  refine ⟨by norm_num [calculate_trajectory_quality],
          by norm_num [calculate_temporal_consistency],
          rfl, rfl,
          by norm_num [calculate_geographic_diversity],
          by norm_num [calculated_score, trust_components, calculate_trajectory_quality,
            calculate_temporal_consistency, calculate_geographic_diversity],
          by norm_num,
          by
            have h : ⌊(2681 : ℚ) / 40⌋ = 67 := by norm_num [Int.floor_eq_iff]
            simp [TrustTier.from_score, ratAsU32, h]
            norm_num⟩

/-! ## Claim C2: the Merkle odd-node rule -/

/-- One bottom-up level exactly as the spec's sentence pins it:
`combine(a,b) = hash(a ∥ b)` on pairs, and an unpaired last node combined
with itself, `combine(a,a) = hash(a ∥ a)`. -/
def levelClaim : List String → List String
  | [] => []
  | [a] => [CryptoEngine.sha256 (strBytes a ++ strBytes a)]
  | a :: b :: rest => CryptoEngine.sha256 (strBytes a ++ strBytes b) :: levelClaim rest

/-- Length of a spec-side level. -/
theorem levelClaim_length (l : List String) : (levelClaim l).length = (l.length + 1) / 2 := by
  induction l using levelClaim.induct <;> simp [levelClaim, *] <;> omega

/-- The Merkle root as the claim states it: hash bottom-up level by level,
duplicating an unpaired last node, until a single root remains. -/
def merkleRootClaim : List String → Option String
  | [] => none
  | [a] => some a
  | a :: b :: rest => merkleRootClaim (levelClaim (a :: b :: rest))
termination_by l => l.length
decreasing_by
  simp [levelClaim_length]
  omega

/-- One bottom-up level as the code computes it (the amended rule): pairs are
hashed as `hash(a ∥ b)`, and an unpaired last node is hashed alone,
`hash(a)`, not duplicated. -/
def levelAmended : List String → List String
  | [] => []
  | [a] => [CryptoEngine.sha256 (strBytes a)]
  | a :: b :: rest => CryptoEngine.sha256 (strBytes a ++ strBytes b) :: levelAmended rest

/-- Length of an amended-rule level. -/
theorem levelAmended_length (l : List String) :
    (levelAmended l).length = (l.length + 1) / 2 := by
  induction l using levelAmended.induct <;> simp [levelAmended, *] <;> omega

/-- The Merkle root with the amended odd-node rule, as a structural
recursion on levels. -/
def merkleRootAmended : List String → Option String
  | [] => none
  | [a] => some a
  | a :: b :: rest => merkleRootAmended (levelAmended (a :: b :: rest))
termination_by l => l.length
decreasing_by
  simp [levelAmended_length]
  omega

/-- The loop body of the source equals the amended level rule. -/
theorem merkleStep_eq_levelAmended (l : List String) : merkleStep l = levelAmended l := by
  induction l using levelAmended.induct with
  | case1 => rfl
  | case2 a => rfl
  | case3 a b rest ih =>
    have ih' : List.map merkleCombine (chunks2 rest) = levelAmended rest := ih
    simp only [merkleStep, chunks2, List.map_cons, levelAmended, ih']
    rfl

/-- A breadcrumb carrying a given hash field (all other fields inert), used
to evaluate the Merkle computations on concrete hash lists. -/
def crumbWithHash (i h : String) : Breadcrumb :=
  { id := i
    h3_index := ""
    h3_resolution := 7
    timestamp := ""
    prev_hash := none
    hash := h
    signature := ""
    source := LocationSource.gps
    accuracy := none
    published := false }

/-- Claim C2 counterexample: on the three-element hash list ["aa", "bb",
"cc"] the root computed by the code differs from the root computed with the
claim's duplicate-the-odd-node rule — the code hashes the unpaired "cc"
alone rather than as `hash("cc" ∥ "cc")`. -/
theorem c2_counterexample_odd_node_not_duplicated :
    merkleRootClaim
        ([crumbWithHash "0" "aa", crumbWithHash "1" "bb", crumbWithHash "2" "cc"].map
          (fun b => b.hash)) ≠
      some (BreadcrumbBlock.calculate_merkle_root
        [crumbWithHash "0" "aa", crumbWithHash "1" "bb", crumbWithHash "2" "cc"]) := by
  have h1 : merkleRootClaim ["aa", "bb", "cc"] =
      some (CryptoEngine.sha256
        (strBytes (CryptoEngine.sha256 (strBytes "aa" ++ strBytes "bb")) ++
         strBytes (CryptoEngine.sha256 (strBytes "cc" ++ strBytes "cc")))) := by
    simp [merkleRootClaim, levelClaim]
  have h2 : BreadcrumbBlock.calculate_merkle_root
      [crumbWithHash "0" "aa", crumbWithHash "1" "bb", crumbWithHash "2" "cc"] =
      CryptoEngine.sha256
        (strBytes (CryptoEngine.sha256 (strBytes "aa" ++ strBytes "bb")) ++
         strBytes (CryptoEngine.sha256 (strBytes "cc"))) := by
    rfl
  rw [show ([crumbWithHash "0" "aa", crumbWithHash "1" "bb", crumbWithHash "2" "cc"].map
    (fun b => b.hash)) = ["aa", "bb", "cc"] from rfl, h1, h2]
  intro hcontra
  have := Option.some.inj hcontra
  revert this
  decide

/-- The loop of the source, run with sufficient fuel, computes the amended
bottom-up root. -/
theorem merkleLoopGo_eq_amended :
    ∀ (n : Nat) (l : List String) (fuel : Nat), l ≠ [] → l.length ≤ fuel → l.length ≤ n →
      merkleRootAmended l = some ((merkleLoopGo fuel l).getLastD zeros64) := by
  intro n
  induction n with
  | zero => intro l fuel hne hf hn; cases l with
    | nil => exact absurd rfl hne
    | cons a rest => simp at hn
  | succ n ih =>
    intro l fuel hne hf hn
    match l, fuel with
    | [], _ => exact absurd rfl hne
    | [a], fuel + 1 => simp [merkleRootAmended, merkleLoopGo]
    | [a], 0 => simp at hf
    | a :: b :: rest, 0 => simp at hf
    | a :: b :: rest, fuel + 1 =>
      have hlen : (a :: b :: rest).length > 1 := by simp
      have hstep : merkleLoopGo (fuel + 1) (a :: b :: rest) =
          merkleLoopGo fuel (merkleStep (a :: b :: rest)) := by
        simp [merkleLoopGo, hlen]
      rw [hstep, merkleStep_eq_levelAmended]
      have hlen' : (levelAmended (a :: b :: rest)).length = (rest.length + 3) / 2 := by
        simp [levelAmended_length]
      have hne' : levelAmended (a :: b :: rest) ≠ [] := by
        intro hcon
        rw [hcon] at hlen'
        simp at hlen'
        omega
      have h1 : (levelAmended (a :: b :: rest)).length ≤ fuel := by
        rw [hlen']
        simp at hf
        omega
      have h2 : (levelAmended (a :: b :: rest)).length ≤ n := by
        rw [hlen']
        simp at hn
        omega
      rw [show merkleRootAmended (a :: b :: rest) =
        merkleRootAmended (levelAmended (a :: b :: rest)) from by rw [merkleRootAmended]]
      exact ih (levelAmended (a :: b :: rest)) fuel hne' h1 h2

/-- Claim C2 as amended: for every non-empty breadcrumb list the code's
Merkle root is the bottom-up pairwise construction with
`combine(a,b) = hash(a ∥ b)`, where a level's unpaired last node is hashed
alone (`hash(a)`) rather than combined with itself. -/
theorem c2_amended_merkle_root (bs : List Breadcrumb) (h : bs ≠ []) :
    merkleRootAmended (bs.map (fun b => b.hash)) =
      some (BreadcrumbBlock.calculate_merkle_root bs) ∧
    (∀ a b, merkleCombine (a, some b) = CryptoEngine.sha256 (strBytes a ++ strBytes b)) ∧
    (∀ a, merkleCombine (a, none) = CryptoEngine.sha256 (strBytes a)) := by
  refine ⟨?_, fun a b => rfl, fun a => rfl⟩
  have hne : bs.map (fun b => b.hash) ≠ [] := by
    simpa using h
  have hempty : bs.isEmpty = false := by
    cases bs with
    | nil => exact absurd rfl h
    | cons x xs => rfl
  rw [BreadcrumbBlock.calculate_merkle_root, hempty]
  simp only [Bool.false_eq_true, if_false]
  exact merkleLoopGo_eq_amended (bs.map (fun b => b.hash)).length (bs.map (fun b => b.hash))
    (bs.map (fun b => b.hash)).length hne le_rfl le_rfl

/-- Witness for the amended claim C2, at the concrete two-element list. -/
theorem c2_amended_merkle_root_witness :
    ([crumbWithHash "0" "aa", crumbWithHash "1" "bb"] ≠ ([] : List Breadcrumb)) ∧
    (merkleRootAmended ([crumbWithHash "0" "aa", crumbWithHash "1" "bb"].map (fun b => b.hash)) =
      some (BreadcrumbBlock.calculate_merkle_root
        [crumbWithHash "0" "aa", crumbWithHash "1" "bb"])) :=
  ⟨by intro hcon; simp at hcon,
   (c2_amended_merkle_root [crumbWithHash "0" "aa", crumbWithHash "1" "bb"]
     (by intro hcon; simp at hcon)).1⟩

/-! ## Handle claiming (crates/tauri-plugin-gns/src/commands/resolver.rs and
src-tauri/src/commands/handles.rs) -/

/-- Reserved handles (crates/tauri-plugin-gns/src/models/record.rs). -/
def RESERVED_HANDLES : List String :=
  ["admin", "root", "system", "gns", "gcrumbs", "support",
   "help", "info", "contact", "null", "undefined", "localhost",
   "api", "www", "mail", "smtp", "ftp", "ssh"]

/-- Strip every leading at sign, Rust `trim_start_matches('@')`. -/
def dropLeadingAt (s : String) : String := String.mk (s.data.dropWhile (fun c => c = '@'))

/-- ASCII lower-casing (`to_lowercase`; the handles evaluated here are
ASCII, where the two agree). -/
def asciiLowercase (s : String) : String := String.mk (s.data.map Char.toLower)

/-- Character class admitted by the handle validation:
`is_ascii_lowercase || is_ascii_digit || '_'`. -/
def isHandleChar (c : Char) : Bool :=
  (97 ≤ c.toNat && c.toNat ≤ 122) || (48 ≤ c.toNat && c.toNat ≤ 57) || c = '_'

/-- The identity fields the claim gate reads (`models::Identity`). -/
structure GnsIdentity where
  public_key : String
  breadcrumb_count : Nat
  trust_score : ℚ
  created_at : String

/-- Proof-of-trajectory proof attached to a handle claim
(models/record.rs `PotProof`). -/
structure PotProof where
  breadcrumb_count : Nat
  trust_score : ℚ
  first_breadcrumb_at : String
  latest_epoch_root : Option String

/-- A signed handle claim (models/record.rs `HandleClaim`). -/
structure HandleClaim where
  handle : String
  identity : String
  proof : PotProof
  signature : String

/-- Collaborator outcomes consumed by the `claim_handle` command: the active
identity, the network's availability answer, the stored identity row and
secret key, the two configured minimums (defaults 100 and 20.0), and the
locally cached handle — which the command never writes, so the embedding
returns it unchanged on every path. -/
structure ClaimContext where
  active_identity : Option String
  handle_available : Bool
  identity : Option GnsIdentity
  secret_key : Option String
  min_breadcrumbs_for_handle : Nat
  min_trust_score_for_handle : ℚ
  cached_handle : Option String

/-- The `claim_handle` command (resolver.rs lines 41-131).  `mkClaimData`
stands for the `serde_json` rendering of the claim payload and `sign` for
the ed25519 signing call.  A returned `.ok claim` is the claim submitted to
the network; every error path returns before submission.  The second
component of the result is the cached-handle state after the call. -/
def claim_handle (ctx : ClaimContext) (mkClaimData : String → String → PotProof → String)
    (sign : String → String) (rawHandle : String) :
    Except GnsError HandleClaim × Option String :=
  let handle := asciiLowercase (dropLeadingAt rawHandle)
  if handle.length < 3 ∨ 20 < handle.length then
    (.error (.InvalidHandle "Handle must be 3-20 characters"), ctx.cached_handle)
  else if ¬ handle.data.all isHandleChar then
    (.error (.InvalidHandle "Handle must be lowercase alphanumeric with underscores"),
      ctx.cached_handle)
  else if RESERVED_HANDLES.contains handle then
    (.error (.HandleUnavailable "Handle is reserved"), ctx.cached_handle)
  else
    match ctx.active_identity with
    | none => (.error (.IdentityNotFound "No active identity"), ctx.cached_handle)
    | some my_pk =>
      if ¬ ctx.handle_available then
        (.error (.HandleUnavailable ("Handle @" ++ handle ++ " is already claimed")),
          ctx.cached_handle)
      else
        match ctx.identity with
        | none => (.error (.IdentityNotFound my_pk), ctx.cached_handle)
        | some identity =>
          match ctx.secret_key with
          | none => (.error (.IdentityNotFound my_pk), ctx.cached_handle)
          | some _ =>
            if identity.breadcrumb_count < ctx.min_breadcrumbs_for_handle then
              (.error (.InsufficientBreadcrumbs
                ("Need " ++ toString ctx.min_breadcrumbs_for_handle ++
                 " breadcrumbs, have " ++ toString identity.breadcrumb_count)),
                ctx.cached_handle)
            else if identity.trust_score < ctx.min_trust_score_for_handle then
              (.error (.InsufficientTrust
                ("Need " ++ toString ctx.min_trust_score_for_handle ++
                 "% trust, have " ++ toString identity.trust_score ++ "%")),
                ctx.cached_handle)
            else
              let proof : PotProof :=
                { breadcrumb_count := identity.breadcrumb_count
                  trust_score := identity.trust_score
                  first_breadcrumb_at := identity.created_at
                  latest_epoch_root := none }
              let claim_data := mkClaimData handle my_pk proof
              (.ok { handle := handle
                     identity := my_pk
                     proof := proof
                     signature := sign claim_data }, ctx.cached_handle)

/-- Claim requirements record (src-tauri/src/commands/handles.rs). -/
structure ClaimRequirements where
  breadcrumbs_required : Nat
  breadcrumbs_current : Nat
  trust_required : ℚ
  trust_current : ℚ

/-- `ClaimRequirements::new`: required values fixed at 100 and 20.0. -/
def ClaimRequirements.new (breadcrumbs : Nat) (trust : ℚ) : ClaimRequirements :=
  { breadcrumbs_required := 100
    breadcrumbs_current := breadcrumbs
    trust_required := 20
    trust_current := trust }

/-- `ClaimRequirements::is_met`. -/
def ClaimRequirements.is_met (r : ClaimRequirements) : Bool :=
  decide (r.breadcrumbs_required ≤ r.breadcrumbs_current) &&
    decide (r.trust_required ≤ r.trust_current)

/-- Claim C6: with 99 breadcrumbs (one below the default minimum of 100) and
a trust score meeting the threshold, claiming fails with an
insufficient-breadcrumbs error carrying required 100 and current 99, no
claim is submitted to the network (the error return precedes submission),
and the cached handle state is unchanged; correspondingly the desktop app's
`ClaimRequirements::is_met` is false at 99 breadcrumbs for every trust
value. -/
theorem c6_claim_handle_99_breadcrumbs (id : GnsIdentity) (cache : Option String)
    (mk : String → String → PotProof → String) (sign : String → String) (sk : String)
    (h99 : id.breadcrumb_count = 99) (htrust : 20 ≤ id.trust_score) :
    claim_handle
        { active_identity := some id.public_key
          handle_available := true
          identity := some id
          secret_key := some sk
          min_breadcrumbs_for_handle := 100
          min_trust_score_for_handle := 20
          cached_handle := cache } mk sign "alice" =
      (.error (.InsufficientBreadcrumbs "Need 100 breadcrumbs, have 99"), cache) ∧
    ∀ t : ℚ, (ClaimRequirements.new 99 t).is_met = false := by
  constructor
  · have hclean : asciiLowercase (dropLeadingAt "alice") = "alice" := by decide
    simp only [claim_handle, hclean, h99]
    simp +decide
  · intro t
    simp [ClaimRequirements.new, ClaimRequirements.is_met]

/-- Witness for claim C6 at a concrete identity with 99 breadcrumbs and
trust 25. -/
theorem c6_claim_handle_99_breadcrumbs_witness :
    ((⟨"pk0", 99, 25, "2025-01-01T00:00:00+00:00"⟩ : GnsIdentity).breadcrumb_count = 99) ∧
    (claim_handle
        { active_identity := some (GnsIdentity.public_key ⟨"pk0", 99, 25, "2025-01-01T00:00:00+00:00"⟩)
          handle_available := true
          identity := some ⟨"pk0", 99, 25, "2025-01-01T00:00:00+00:00"⟩
          secret_key := some "sk0"
          min_breadcrumbs_for_handle := 100
          min_trust_score_for_handle := 20
          cached_handle := none } (fun _ _ _ => "") (fun _ => "") "alice" =
      (.error (.InsufficientBreadcrumbs "Need 100 breadcrumbs, have 99"), none)) :=
  ⟨rfl,
   (c6_claim_handle_99_breadcrumbs ⟨"pk0", 99, 25, "2025-01-01T00:00:00+00:00"⟩ none
      (fun _ _ _ => "") (fun _ => "") "sk0" rfl (by norm_num)).1⟩

/-! ## Signature verification (crates/tauri-plugin-gns/src/core/crypto.rs,
lines 162-184) -/

/-- Error kinds of the crypto engine: a hex-decode failure propagated by
the question-mark operator, an invalid-input size error, and a dalek key
error propagated by the question-mark operator. -/
inductive CryptoErr where
  | FromHex
  | InvalidInput (msg : String)
  | Crypto (msg : String)
  deriving DecidableEq

/-- `CryptoEngine::verify`.  The ed25519-dalek calls are parameters:
`parseVerifyingKey` models `VerifyingKey::from_bytes` (which can reject
invalid key material) and `dalekVerify` the final signature check.  The
in-source logic — hex decoding of both arguments, the two size checks, and
error propagation — is embedded directly. -/
def CryptoEngine.verify {κ : Type} (parseVerifyingKey : List Nat → Option κ)
    (dalekVerify : κ → List Nat → List Nat → Bool)
    (public_key_hex : String) (message : List Nat) (signature_hex : String) :
    Except CryptoErr Bool :=
  match hexDecode public_key_hex with
  | none => .error .FromHex
  | some public_bytes =>
    match hexDecode signature_hex with
    | none => .error .FromHex
    | some signature_bytes =>
      if public_bytes.length ≠ 32 then .error (.InvalidInput "Invalid public key size")
      else if signature_bytes.length ≠ 64 then .error (.InvalidInput "Invalid signature size")
      else
        match parseVerifyingKey public_bytes with
        | none => .error (.Crypto "invalid verifying key")
        | some k => .ok (dalekVerify k message signature_bytes)

/-- Claim C9 counterexample: the claim states `verify` returns the boolean
false on any malformed input rather than an error.  On a public key that is
not valid hex the function returns the propagated hex-decode error, not
`Ok(false)`. -/
theorem c9_counterexample_verify_errors_on_bad_hex :
    CryptoEngine.verify (fun _ => some ()) (fun _ _ _ => false) "not-hex!" [] "" =
      .error CryptoErr.FromHex := by
  rfl

/-- Claim C9 as amended: `verify` returns `Ok` exactly when both arguments
decode as hex, the key is 32 bytes, the signature 64 bytes, and the key
material parses; on any such well-formed input the result is the dalek
check's boolean.  On malformed input it returns an error instead of the
boolean false. -/
theorem c9_amended_verify_ok_iff_well_formed {κ : Type}
    (parseVerifyingKey : List Nat → Option κ) (dalekVerify : κ → List Nat → List Nat → Bool)
    (pk : String) (msg : List Nat) (sig : String) :
    ((∃ b, CryptoEngine.verify parseVerifyingKey dalekVerify pk msg sig = .ok b) ↔
      (∃ pb sb k, hexDecode pk = some pb ∧ hexDecode sig = some sb ∧
        pb.length = 32 ∧ sb.length = 64 ∧ parseVerifyingKey pb = some k)) ∧
    (∀ pb sb k, hexDecode pk = some pb → hexDecode sig = some sb →
      pb.length = 32 → sb.length = 64 → parseVerifyingKey pb = some k →
      CryptoEngine.verify parseVerifyingKey dalekVerify pk msg sig =
        .ok (dalekVerify k msg sb)) := by
  constructor
  · constructor
    · rintro ⟨b, hb⟩
      unfold CryptoEngine.verify at hb
      cases hpk : hexDecode pk with
      | none => simp [hpk] at hb
      | some pb =>
        cases hsig : hexDecode sig with
        | none => simp [hpk, hsig] at hb
        | some sb =>
          simp only [hpk, hsig] at hb
          by_cases h32 : pb.length = 32
          · by_cases h64 : sb.length = 64
            · cases hk : parseVerifyingKey pb with
              | none => simp [h32, h64, hk] at hb
              | some k => exact ⟨pb, sb, k, rfl, rfl, h32, h64, hk⟩
            · simp [h32, h64] at hb
          · simp [h32] at hb
    · rintro ⟨pb, sb, k, hpk, hsig, h32, h64, hk⟩
      exact ⟨dalekVerify k msg sb, by simp [CryptoEngine.verify, hpk, hsig, h32, h64, hk]⟩
  · intro pb sb k hpk hsig h32 h64 hk
    simp [CryptoEngine.verify, hpk, hsig, h32, h64, hk]

/-- Witness for the amended claim C9: an all-zero 32-byte key and 64-byte
signature decode and parse, and the dalek check (instantiated to reject)
yields `Ok false`. -/
theorem c9_amended_verify_witness :
    CryptoEngine.verify (fun _ => some ()) (fun _ _ _ => false)
      (String.mk (List.replicate 64 '0')) [] (String.mk (List.replicate 128 '0')) =
      .ok false :=
  (c9_amended_verify_ok_iff_well_formed (fun _ => some ()) (fun _ _ _ => false)
      (String.mk (List.replicate 64 '0')) [] (String.mk (List.replicate 128 '0'))).2
    (List.replicate 32 0) (List.replicate 64 0) () (by decide) (by decide)
    (by decide) (by decide) rfl

/-! ## X25519 key exchange (crates/tauri-plugin-gns/src/core/crypto.rs,
lines 194-218)

The x25519-dalek scalar multiplication is modelled abstractly: a carrier
`G` (the x-coordinate quotient of Curve25519 on which X25519 operates) with
a scalar action `smul` satisfying `smul a (smul b g) = smul (a * b) g`, a
32-byte point encoding `enc` with decoding `dec` inverting it, and the
curve base point.  Scalar clamping (`StaticSecret`) is embedded concretely
as the bit operations dalek performs. -/

/-- Dalek scalar clamping on 32 little-endian bytes: clear the low 3 bits of
byte 0, clear the top bit and set bit 6 of byte 31. -/
def clampBytes (bs : List Nat) : List Nat :=
  (bs.set 0 ((bs.getD 0 0) &&& 248)).set 31 (((bs.getD 31 0) &&& 127) ||| 64)

/-- Little-endian byte-list value. -/
def leNat : List Nat → Nat
  | [] => 0
  | b :: rest => b + 256 * leNat rest

/-- The clamped scalar of a 32-byte secret. -/
def clampScalar (bs : List Nat) : Nat := leNat (clampBytes bs)

/-- `X25519Public::from(&secret)`: the encoded scalar multiple of the base
point by the clamped secret. -/
def x25519_public_of {G : Type} (smul : Nat → G → G) (base : G) (enc : G → List Nat)
    (priv : List Nat) : List Nat :=
  enc (smul (clampScalar priv) base)

/-- `CryptoEngine::key_exchange`: hex-decode both keys, check both are 32
bytes, then Diffie-Hellman through the dalek action and hex-encode the
shared secret. -/
def CryptoEngine.key_exchange {G : Type} (smul : Nat → G → G) (enc : G → List Nat)
    (dec : List Nat → G) (our_secret_hex their_public_hex : String) :
    Except CryptoErr String :=
  match hexDecode our_secret_hex with
  | none => .error .FromHex
  | some our_secret_bytes =>
    match hexDecode their_public_hex with
    | none => .error .FromHex
    | some their_public_bytes =>
      if our_secret_bytes.length ≠ 32 then .error (.InvalidInput "Invalid secret key size")
      else if their_public_bytes.length ≠ 32 then .error (.InvalidInput "Invalid public key size")
      else .ok (hexEncode (enc (smul (clampScalar our_secret_bytes) (dec their_public_bytes))))

/-- Hex round trip for one digit. -/
theorem hexVal_hexDigit : ∀ n, n < 16 → hexVal (hexDigit n) = some n := by
  decide

/-- Hex decoding inverts hex encoding on byte lists. -/
theorem hexDecode_hexEncode (l : List Nat) (h : ∀ b ∈ l, b < 256) :
    hexDecode (hexEncode l) = some l := by
  induction l with
  | nil => rfl
  | cons b rest ih =>
    have hb : b < 256 := h b (List.mem_cons_self b rest)
    have hrest : ∀ x ∈ rest, x < 256 := fun x hx => h x (List.mem_cons_of_mem b hx)
    have hhi : hexVal (hexDigit (b / 16)) = some (b / 16) :=
      hexVal_hexDigit (b / 16) (Nat.div_lt_of_lt_mul (by omega))
    have hlo : hexVal (hexDigit (b % 16)) = some (b % 16) :=
      hexVal_hexDigit (b % 16) (Nat.mod_lt b (by omega))
    have ihh : hexDecodeChars (hexEncode rest).data = some rest := ih hrest
    show hexDecodeChars (hexEncode (b :: rest)).data = some (b :: rest)
    have hdata : (hexEncode (b :: rest)).data =
        hexDigit (b / 16) :: hexDigit (b % 16) :: (hexEncode rest).data := by
      simp [hexEncode]
    rw [hdata]
    rw [hexDecodeChars, hhi, hlo, ihh]
    show some ((16 * (b / 16) + b % 16) :: rest) = some (b :: rest)
    rw [Nat.div_add_mod]

/-- Length of a hex-encoded byte list. -/
theorem hexEncode_length (l : List Nat) : (hexEncode l).length = 2 * l.length := by
  induction l with
  | nil => rfl
  | cons b rest ih =>
    have : (hexEncode (b :: rest)).data =
        hexDigit (b / 16) :: hexDigit (b % 16) :: (hexEncode rest).data := by
      simp [hexEncode]
    simp only [String.length, this, List.length_cons]
    simp only [String.length] at ih
    omega

/-- Clamping keeps a byte list 32 bytes long with bytes below 256. -/
theorem clampBytes_bytes_lt (l : List Nat) (h : ∀ b ∈ l, b < 256) :
    ∀ b ∈ clampBytes l, b < 256 := by
  intro b hb
  unfold clampBytes at hb
  rcases List.mem_or_eq_of_mem_set hb with hb' | hb'
  · rcases List.mem_or_eq_of_mem_set hb' with hb'' | hb''
    · exact h b hb''
    · subst hb''
      have := Nat.and_le_right (n := l.getD 0 0) (m := 248)
      omega
  · subst hb'
    have h127 : (l.getD 31 0) &&& 127 ≤ 127 := Nat.and_le_right
    have : ((l.getD 31 0) &&& 127) ||| 64 < 256 := by
      apply Nat.or_lt_two_pow (n := 8) <;> omega
    exact this

/-- Claim C10: for every pair of exchange keypairs, the key exchange is
symmetric: exchanging our secret with their derived public key equals
exchanging their secret with our derived public key, both succeeding with
the encoding of the common scalar multiple of the base point. -/
theorem c10_key_exchange_symmetric {G : Type} (smul : Nat → G → G) (enc : G → List Nat)
    (dec : List Nat → G) (base : G)
    (hsmul : ∀ a b g, smul a (smul b g) = smul (a * b) g)
    (hdec : ∀ g, dec (enc g) = g)
    (henc32 : ∀ g, (enc g).length = 32)
    (hencB : ∀ g, ∀ b ∈ enc g, b < 256)
    (apriv bpriv : List Nat) (ha32 : apriv.length = 32) (hb32 : bpriv.length = 32)
    (haB : ∀ b ∈ apriv, b < 256) (hbB : ∀ b ∈ bpriv, b < 256) :
    CryptoEngine.key_exchange smul enc dec (hexEncode apriv)
        (hexEncode (x25519_public_of smul base enc bpriv)) =
      CryptoEngine.key_exchange smul enc dec (hexEncode bpriv)
        (hexEncode (x25519_public_of smul base enc apriv)) ∧
    CryptoEngine.key_exchange smul enc dec (hexEncode apriv)
        (hexEncode (x25519_public_of smul base enc bpriv)) =
      .ok (hexEncode (enc (smul (clampScalar apriv * clampScalar bpriv) base))) := by
  have key : ∀ (x y : List Nat), x.length = 32 → y.length = 32 →
      (∀ b ∈ x, b < 256) → (∀ b ∈ y, b < 256) →
      CryptoEngine.key_exchange smul enc dec (hexEncode x)
        (hexEncode (x25519_public_of smul base enc y)) =
      .ok (hexEncode (enc (smul (clampScalar x * clampScalar y) base))) := by
    intro x y hx hy hxB hyB
    unfold CryptoEngine.key_exchange x25519_public_of
    rw [hexDecode_hexEncode x hxB,
      hexDecode_hexEncode (enc (smul (clampScalar y) base)) (hencB _)]
    simp [hx, henc32, hdec, hsmul]
  rw [key apriv bpriv ha32 hb32 haB hbB, key bpriv apriv hb32 ha32 hbB haB,
    Nat.mul_comm]
  exact ⟨rfl, rfl⟩

/-! ## A concrete instance of the abstract curve interface, used to witness
the key-exchange theorem: scalar action by multiplication on `ZMod p` with
32-byte little-endian encoding. -/

/-- Modulus of the concrete witness group. -/
def wCurveP : Nat := 2 ^ 255 - 19

instance : NeZero wCurveP := ⟨by norm_num [wCurveP]⟩

/-- Little-endian byte expansion to a fixed width. -/
def leBytes : Nat → Nat → List Nat
  | 0, _ => []
  | k + 1, n => (n % 256) :: leBytes k (n / 256)

/-- Scalar action of the witness group. -/
def wSmul (a : Nat) (g : ZMod wCurveP) : ZMod wCurveP := (a : ZMod wCurveP) * g

/-- Point encoding of the witness group. -/
def wEnc (g : ZMod wCurveP) : List Nat := leBytes 32 g.val

/-- Point decoding of the witness group. -/
def wDec (bs : List Nat) : ZMod wCurveP := (leNat bs : ZMod wCurveP)

/-- Base point of the witness group. -/
def wBase : ZMod wCurveP := 9

/-- The witness scalar action composes multiplicatively. -/
theorem wSmul_assoc (a b : Nat) (g : ZMod wCurveP) :
    wSmul a (wSmul b g) = wSmul (a * b) g := by
  unfold wSmul
  push_cast
  ring

/-- Little-endian round trip below the width bound. -/
theorem leNat_leBytes (k : Nat) : ∀ n, n < 256 ^ k → leNat (leBytes k n) = n := by
  induction k with
  | zero => intro n hn; interval_cases n; rfl
  | succ k ih =>
    intro n hn
    rw [leBytes, leNat, ih (n / 256) (by
      have h2 : 256 ^ (k + 1) = 256 * 256 ^ k := by ring
      rw [h2] at hn
      exact Nat.div_lt_of_lt_mul hn)]
    omega

/-- Witness decoding inverts witness encoding. -/
theorem wDec_wEnc (g : ZMod wCurveP) : wDec (wEnc g) = g := by
  unfold wDec wEnc
  rw [leNat_leBytes 32 g.val (lt_of_lt_of_le g.val_lt (by norm_num [wCurveP]))]
  exact ZMod.natCast_rightInverse g

/-- Width of the little-endian expansion. -/
theorem leBytes_length (k : Nat) (n : Nat) : (leBytes k n).length = k := by
  induction k generalizing n with
  | zero => rfl
  | succ k ih => simp [leBytes, ih]

/-- Bytes of the little-endian expansion are below 256. -/
theorem leBytes_lt (k n : Nat) : ∀ b ∈ leBytes k n, b < 256 := by
  induction k generalizing n with
  | zero => intro b hb; cases hb
  | succ k ih =>
    intro b hb
    rcases List.mem_cons.mp hb with h | h
    · subst h; exact Nat.mod_lt _ (by omega)
    · exact ih _ b h

/-- First witness secret key. -/
def wKeyA : List Nat := 1 :: List.replicate 31 0

/-- Second witness secret key. -/
def wKeyB : List Nat := 2 :: List.replicate 31 0

/-- Witness for claim C10, at the concrete curve instance and two concrete
32-byte secrets. -/
theorem c10_key_exchange_symmetric_witness :
    CryptoEngine.key_exchange wSmul wEnc wDec (hexEncode wKeyA)
        (hexEncode (x25519_public_of wSmul wBase wEnc wKeyB)) =
      CryptoEngine.key_exchange wSmul wEnc wDec (hexEncode wKeyB)
        (hexEncode (x25519_public_of wSmul wBase wEnc wKeyA)) :=
  (c10_key_exchange_symmetric wSmul wEnc wDec wBase wSmul_assoc wDec_wEnc
      (fun g => leBytes_length 32 g.val) (fun g => leBytes_lt 32 g.val)
      wKeyA wKeyB (by decide) (by decide) (by decide) (by decide)).1

/-! ## Canonical JSON (src-tauri/src/commands/handles.rs, lines 202-239)

The generic value tree of `serde_json::Value`, with numbers restricted to
the `as_i64` branch the canonical encoder takes for integers (the claims
under verification exercise only integral numbers). -/

/-- JSON value tree. -/
inductive Json where
  | null
  | bool (b : Bool)
  | num (n : Int)
  | str (s : String)
  | arr (items : List Json)
  | obj (entries : List (String × Json))

/-- Rust `Value::is_null`. -/
def Json.isNull : Json → Bool
  | .null => true
  | _ => false

/-- Byte-lexicographic comparison of character lists (structural, hence
kernel-computable; on UTF-8 strings byte order equals code-point order, so
this is exactly the `Ord` instance Rust sorts `String` keys by). -/
def lexLeChars : List Char → List Char → Bool
  | [], _ => true
  | _ :: _, [] => false
  | c :: cs, d :: ds =>
    if c.toNat < d.toNat then true
    else if d.toNat < c.toNat then false
    else lexLeChars cs ds

/-- Byte-lexicographic string comparison. -/
def strLe (a b : String) : Bool := lexLeChars a.data b.data

/-- The comparison as a relation, for the sorting lemmas. -/
def strLeP (a b : String) : Prop := strLe a b = true

instance : DecidableRel strLeP := fun a b => by unfold strLeP; infer_instance

/-- Key order on entry pairs. -/
def pairLeP (x y : String × Json) : Prop := strLe x.1 y.1 = true

instance : DecidableRel pairLeP := fun x y => by unfold pairLeP; infer_instance

/-- Strict key order on entry pairs: key-ordered and key-distinct. -/
def pairLtP (x y : String × Json) : Prop := strLe x.1 y.1 = true ∧ x.1 ≠ y.1

/-- Totality of the character comparison. -/
theorem lexLeChars_total : ∀ a b, lexLeChars a b = true ∨ lexLeChars b a = true := by
  intro a
  induction a with
  | nil => intro b; left; rfl
  | cons c cs ih =>
    intro b
    cases b with
    | nil => right; rfl
    | cons d ds =>
      by_cases h1 : c.toNat < d.toNat
      · left; simp [lexLeChars, h1]
      · by_cases h2 : d.toNat < c.toNat
        · right; simp [lexLeChars, h2]
        · rcases ih ds with h | h
          · left; simp [lexLeChars, h1, h2, h]
          · right; simp [lexLeChars, h1, h2, h]

/-- Transitivity of the character comparison. -/
theorem lexLeChars_trans :
    ∀ a b c, lexLeChars a b = true → lexLeChars b c = true → lexLeChars a c = true := by
  intro a
  induction a with
  | nil => intro b c _ _; rfl
  | cons x xs ih =>
    intro b c hab hbc
    cases b with
    | nil => simp [lexLeChars] at hab
    | cons y ys =>
      cases c with
      | nil => simp [lexLeChars] at hbc
      | cons z zs =>
        simp only [lexLeChars] at hab hbc ⊢
        by_cases hxy : x.toNat < y.toNat
        · by_cases hyz : y.toNat < z.toNat
          · simp [show x.toNat < z.toNat by omega]
          · by_cases hzy : z.toNat < y.toNat
            · simp [hyz, hzy] at hbc
            · have : y.toNat = z.toNat := by omega
              simp [show x.toNat < z.toNat by omega]
        · by_cases hyx : y.toNat < x.toNat
          · simp [hxy, hyx] at hab
          · have hxy' : x.toNat = y.toNat := by omega
            by_cases hyz : y.toNat < z.toNat
            · simp [show x.toNat < z.toNat by omega]
            · by_cases hzy : z.toNat < y.toNat
              · simp [hyz, hzy] at hbc
              · have : y.toNat = z.toNat := by omega
                simp [hxy, hyx] at hab
                simp [hyz, hzy] at hbc
                simp [show ¬ x.toNat < z.toNat by omega, show ¬ z.toNat < x.toNat by omega]
                exact ih ys zs hab hbc

/-- Antisymmetry of the character comparison. -/
theorem lexLeChars_antisymm :
    ∀ a b, lexLeChars a b = true → lexLeChars b a = true → a = b := by
  intro a
  induction a with
  | nil =>
    intro b _ hba
    cases b with
    | nil => rfl
    | cons d ds => simp [lexLeChars] at hba
  | cons c cs ih =>
    intro b hab hba
    cases b with
    | nil => simp [lexLeChars] at hab
    | cons d ds =>
      simp only [lexLeChars] at hab hba
      by_cases h1 : c.toNat < d.toNat
      · simp [show ¬ d.toNat < c.toNat by omega, h1] at hba
      · by_cases h2 : d.toNat < c.toNat
        · simp [h1, h2] at hab
        · have hcd : c.toNat = d.toNat := by omega
          have hc : c = d := Char.eq_of_val_eq (UInt32.ext hcd)
          simp [h1, h2] at hab hba
          rw [hc, ih ds hab hba]

instance : IsTotal String strLeP := ⟨fun a b => lexLeChars_total a.data b.data⟩

instance : IsTrans String strLeP := ⟨fun a b c => lexLeChars_trans a.data b.data c.data⟩

instance : IsAntisymm String strLeP :=
  ⟨fun a b hab hba => by
    cases a with
    | mk da =>
      cases b with
      | mk db => exact congrArg String.mk (lexLeChars_antisymm da db hab hba)⟩

instance : IsTotal (String × Json) pairLeP := ⟨fun x y => lexLeChars_total x.1.data y.1.data⟩

instance : IsTrans (String × Json) pairLeP :=
  ⟨fun x y z => lexLeChars_trans x.1.data y.1.data z.1.data⟩

instance : IsAntisymm (String × Json) pairLtP :=
  ⟨fun x y hxy hyx => absurd (antisymm (r := strLeP) hxy.1 hyx.1) hxy.2⟩

/-- Replace every occurrence of one character by a character sequence
(Rust `str::replace` with a single-character pattern). -/
def replaceChar (target : Char) (rep : List Char) (s : String) : String :=
  String.mk (s.data.flatMap (fun c => if c = target then rep else [c]))

/-- The encoder's string escaping: first double backslashes, then escape
double quotes. -/
def escapeJson (s : String) : String :=
  replaceChar '"' ['\\', '"'] (replaceChar '\\' ['\\', '\\'] s)

/-- The canonical JSON encoder, exactly as `canonical_json` in the source:
scalars render directly (integers through the `as_i64` branch), arrays in
order, and objects by sorting the raw key strings, filtering out keys whose
value is null, and emitting `"key":value` pairs (object keys are emitted
raw).  Each entry value is rendered once (`rendered`) and looked up by key,
which matches the source's `canonical_json(&obj[k])` because lookup
commutes with rendering. -/
def canonical_json : Json → String
  | .null => "null"
  | .bool b => if b then "true" else "false"
  | .num n => toString n
  | .str s => "\"" ++ escapeJson s ++ "\""
  | .arr items =>
      "[" ++ String.intercalate "," (items.attach.map (fun x => canonical_json x.1)) ++ "]"
  | .obj entries =>
      let rendered := entries.attach.map (fun x => (x.1.1, canonical_json x.1.2))
      let sortedKeys := List.insertionSort strLeP (entries.map Prod.fst)
      let pairs := (sortedKeys.filter
          (fun k => !((entries.lookup k).getD Json.null).isNull)).map
        (fun k => "\"" ++ k ++ "\":" ++ ((rendered.lookup k).getD ""))
      "\x7b" ++ String.intercalate "," pairs ++ "\x7d"
termination_by j => sizeOf j
decreasing_by
  · have h1 := List.sizeOf_lt_of_mem x.2
    simp only [Json.arr.sizeOf_spec]
    omega
  · obtain ⟨⟨k, v⟩, hx⟩ := x
    have h1 := List.sizeOf_lt_of_mem hx
    simp only [Json.obj.sizeOf_spec, Prod.mk.sizeOf_spec] at *
    omega

/-- The canonical encoding as the specification words it: recursively sort
object entries lexicographically by raw key string, omit entries whose value
is null, render integers plainly, preserve array order. -/
def canonical_spec : Json → String
  | .null => "null"
  | .bool b => if b then "true" else "false"
  | .num n => toString n
  | .str s => "\"" ++ escapeJson s ++ "\""
  | .arr items =>
      "[" ++ String.intercalate "," (items.attach.map (fun x => canonical_spec x.1)) ++ "]"
  | .obj entries =>
      let pairs := List.insertionSort pairLeP (entries.filter (fun kv => !kv.2.isNull))
      "\x7b" ++ String.intercalate ","
        (pairs.attach.map (fun kv => "\"" ++ kv.1.1 ++ "\":" ++ canonical_spec kv.1.2)) ++
      "\x7d"
termination_by j => sizeOf j
decreasing_by
  · have h1 := List.sizeOf_lt_of_mem x.2
    simp only [Json.arr.sizeOf_spec]
    omega
  · obtain ⟨⟨k, v⟩, hkv⟩ := kv
    have hmem : (k, v) ∈ entries :=
      List.mem_of_mem_filter ((List.perm_insertionSort pairLeP _).subset hkv)
    have h1 := List.sizeOf_lt_of_mem hmem
    simp only [Json.obj.sizeOf_spec, Prod.mk.sizeOf_spec] at *
    omega

/-- Well-formedness to the given nesting depth: every object in the tree has
pairwise-distinct keys (as `serde_json::Map` guarantees).  The fuel argument
keeps the predicate structurally recursive; any fuel at least the nesting
depth decides the real property. -/
def jsonWf : Nat → Json → Bool
  | 0, _ => false
  | fuel + 1, j =>
    match j with
    | .arr items => items.all (jsonWf fuel)
    | .obj entries =>
        decide ((entries.map Prod.fst).Nodup) && entries.all (fun kv => jsonWf fuel kv.2)
    | _ => true

/-- Looking up in a value-mapped association list is mapping the lookup. -/
theorem lookup_map_value {β γ : Type} (entries : List (String × β)) (f : β → γ) (k : String) :
    (entries.map (fun kv => (kv.1, f kv.2))).lookup k = (entries.lookup k).map f := by
  induction entries with
  | nil => rfl
  | cons kv rest ih =>
    by_cases h : k == kv.1
    · simp [List.lookup, h]
    · simp [List.lookup, h, ih]

/-- A key occurring in an association list looks up to some value. -/
theorem lookup_isSome_of_mem {β : Type} (entries : List (String × β)) (k : String)
    (h : k ∈ entries.map Prod.fst) : ∃ v, entries.lookup k = some v := by
  induction entries with
  | nil => simp at h
  | cons kv rest ih =>
    by_cases hk : k == kv.1
    · exact ⟨kv.2, by simp [List.lookup, hk]⟩
    · have h2 : k ∈ rest.map Prod.fst := by
        have h3 : k = kv.1 ∨ k ∈ rest.map Prod.fst := by
          simpa using h
        rcases h3 with h1 | h1
        · exact absurd (by simp [h1]) hk
        · exact h1
      obtain ⟨v, hv⟩ := ih h2
      exact ⟨v, by simp [List.lookup, hk, hv]⟩

/-- A successful lookup exhibits a member pair. -/
theorem mem_of_lookup_some {β : Type} (entries : List (String × β)) (k : String) (v : β)
    (h : entries.lookup k = some v) : (k, v) ∈ entries := by
  induction entries with
  | nil => simp [List.lookup] at h
  | cons kv rest ih =>
    by_cases hk : k == kv.1
    · simp [List.lookup, hk] at h
      have hk' : k = kv.1 := by simpa using hk
      have hkv : (k, v) = kv := by rw [hk', ← h]
      rw [hkv]
      exact List.mem_cons_self kv rest
    · simp [List.lookup, hk] at h
      exact List.mem_cons_of_mem kv (ih h)

/-- Filtering the key list by value-nullity and pairing each key with its
looked-up value reconstructs the null-filtered entry list, provided keys are
distinct. -/
theorem keys_filter_map_eq (entries : List (String × Json))
    (hnd : (entries.map Prod.fst).Nodup) :
    ((entries.map Prod.fst).filter
        (fun k => !((entries.lookup k).getD Json.null).isNull)).map
      (fun k => (k, (entries.lookup k).getD Json.null)) =
    entries.filter (fun kv => !kv.2.isNull) := by
  induction entries with
  | nil => rfl
  | cons kv rest ih =>
    have hk0 : kv.1 ∉ rest.map Prod.fst := by
      simp only [List.map_cons, List.nodup_cons] at hnd
      exact hnd.1
    have hnd' : (rest.map Prod.fst).Nodup := by
      simp only [List.map_cons, List.nodup_cons] at hnd
      exact hnd.2
    have hlook0 : (kv :: rest).lookup kv.1 = some kv.2 := by
      simp [List.lookup]
    have hlookt : ∀ k ∈ rest.map Prod.fst, (kv :: rest).lookup k = rest.lookup k := by
      intro k hk
      have hne : ¬(k == kv.1) = true := by
        simp only [beq_iff_eq]
        intro hcon
        exact hk0 (hcon ▸ hk)
      simp [List.lookup, hne]
    have hfiltercongr :
        (rest.map Prod.fst).filter
            (fun k => !(((kv :: rest).lookup k).getD Json.null).isNull) =
        (rest.map Prod.fst).filter
            (fun k => !((rest.lookup k).getD Json.null).isNull) := by
      apply List.filter_congr
      intro k hk
      rw [hlookt k hk]
    have hmapcongr :
        ∀ l : List String, (∀ k ∈ l, k ∈ rest.map Prod.fst) →
        l.map (fun k => (k, ((kv :: rest).lookup k).getD Json.null)) =
        l.map (fun k => (k, (rest.lookup k).getD Json.null)) := by
      intro l hl
      apply List.map_congr_left
      intro k hk
      rw [hlookt k (hl k hk)]
    by_cases hv : kv.2.isNull
    · simp only [List.map_cons]
      rw [List.filter_cons]
      have hcond : (!(((kv :: rest).lookup kv.1).getD Json.null).isNull) = false := by
        rw [hlook0]
        simp [hv]
      rw [hcond]
      simp only [Bool.false_eq_true, if_false]
      rw [hfiltercongr,
        hmapcongr _ (fun k hk => List.mem_of_mem_filter hk), ih hnd']
      rw [List.filter_cons]
      simp [hv]
    · simp only [List.map_cons]
      rw [List.filter_cons]
      have hcond : (!(((kv :: rest).lookup kv.1).getD Json.null).isNull) = true := by
        rw [hlook0]
        simp [hv]
      rw [hcond]
      simp only [if_true]
      rw [List.map_cons]
      rw [hlook0]
      rw [hfiltercongr,
        hmapcongr _ (fun k hk => List.mem_of_mem_filter hk), ih hnd']
      rw [List.filter_cons]
      simp [hv]

/-- Key-sorted with pairwise-distinct keys means strictly key-sorted. -/
theorem pairwise_lt_of_sorted_nodup (l : List (String × Json))
    (hs : List.Pairwise pairLeP l) (hnd : (l.map Prod.fst).Nodup) :
    List.Pairwise pairLtP l := by
  have h2 : List.Pairwise (fun a b : String × Json => a.1 ≠ b.1) l :=
    List.pairwise_map.mp hnd
  exact (hs.and h2).imp (fun h => ⟨h.1, h.2⟩)

/-- The object branch's key-sort, null-filter and lookup pipeline computes
the key-sort of the null-filtered entry pairs. -/
theorem sorted_keys_filter_map_eq (entries : List (String × Json))
    (hnd : (entries.map Prod.fst).Nodup) :
    ((List.insertionSort strLeP (entries.map Prod.fst)).filter
        (fun k => !((entries.lookup k).getD Json.null).isNull)).map
      (fun k => (k, (entries.lookup k).getD Json.null)) =
    List.insertionSort pairLeP (entries.filter (fun kv => !kv.2.isNull)) := by
  set keys := entries.map Prod.fst with hkeys
  set p := fun k => !((entries.lookup k).getD Json.null).isNull with hp
  set q := fun kv : String × Json => !kv.2.isNull with hq
  set g := fun k => (k, (entries.lookup k).getD Json.null) with hg
  have hperm1 : List.Perm (List.insertionSort strLeP keys) keys :=
    List.perm_insertionSort _ _
  have hpermL : List.Perm (((List.insertionSort strLeP keys).filter p).map g)
      (entries.filter q) := by
    have h1 : List.Perm ((List.insertionSort strLeP keys).filter p) (keys.filter p) :=
      hperm1.filter p
    have h2 := h1.map g
    have h3 : (keys.filter p).map g = entries.filter q := by
      rw [hkeys, hp, hg, hq]
      exact keys_filter_map_eq entries hnd
    rw [h3] at h2
    exact h2
  have hpermR : List.Perm (List.insertionSort pairLeP (entries.filter q))
      (entries.filter q) := List.perm_insertionSort _ _
  have hs0 : List.Sorted strLeP (List.insertionSort strLeP keys) :=
    List.sorted_insertionSort strLeP keys
  have hnd0 : (List.insertionSort strLeP keys).Nodup := hperm1.nodup_iff.mpr hnd
  have hs1 : List.Sorted strLeP ((List.insertionSort strLeP keys).filter p) :=
    hs0.filter p
  have hnd1 : ((List.insertionSort strLeP keys).filter p).Nodup := hnd0.filter p
  have hsL : List.Pairwise pairLeP (((List.insertionSort strLeP keys).filter p).map g) := by
    apply List.pairwise_map.mpr
    exact hs1.imp (fun {a b} h => h)
  have hndL : ((((List.insertionSort strLeP keys).filter p).map g).map Prod.fst).Nodup := by
    rw [List.map_map]
    have hfst : Prod.fst ∘ g = id := by
      funext k
      rfl
    rw [hfst, List.map_id]
    exact hnd1
  have hltL := pairwise_lt_of_sorted_nodup _ hsL hndL
  have hsR : List.Sorted pairLeP (List.insertionSort pairLeP (entries.filter q)) :=
    List.sorted_insertionSort pairLeP _
  have hndR : ((List.insertionSort pairLeP (entries.filter q)).map Prod.fst).Nodup := by
    have hsub : List.Sublist ((entries.filter q).map Prod.fst) (entries.map Prod.fst) :=
      (List.filter_sublist entries).map Prod.fst
    have hndq : ((entries.filter q).map Prod.fst).Nodup := hnd.sublist hsub
    exact ((hpermR.map Prod.fst).nodup_iff).mpr hndq
  have hltR := pairwise_lt_of_sorted_nodup _ hsR hndR
  exact List.eq_of_perm_of_sorted (hpermL.trans hpermR.symm) hltL hltR

/-- Array branch of the refinement: with the elements already agreeing, the
two encoders agree on an array. -/
theorem canonical_json_arr_eq (items : List Json)
    (hih : ∀ x ∈ items, canonical_json x = canonical_spec x) :
    canonical_json (Json.arr items) = canonical_spec (Json.arr items) := by
  simp only [canonical_json, canonical_spec]
  have h1 : items.attach.map (fun x => canonical_json x.1) =
      items.map canonical_json := List.attach_map_val items canonical_json
  have h2 : items.attach.map (fun x => canonical_spec x.1) =
      items.map canonical_spec := List.attach_map_val items canonical_spec
  rw [h1, h2, List.map_congr_left hih]

/-- Object branch of the refinement: with distinct keys and the entry values
already agreeing, the two encoders agree on an object. -/
theorem canonical_json_obj_eq (entries : List (String × Json))
    (hnd : (entries.map Prod.fst).Nodup)
    (hih : ∀ kv ∈ entries, canonical_json kv.2 = canonical_spec kv.2) :
    canonical_json (Json.obj entries) = canonical_spec (Json.obj entries) := by
  simp only [canonical_json, canonical_spec]
  have hrend : entries.attach.map (fun x => (x.1.1, canonical_json x.1.2)) =
      entries.map (fun kv => (kv.1, canonical_json kv.2)) :=
    List.attach_map_val entries (fun kv => (kv.1, canonical_json kv.2))
  rw [hrend]
  have hattachR : (List.insertionSort pairLeP
        (entries.filter (fun kv => !kv.2.isNull))).attach.map
      (fun kv => "\"" ++ kv.1.1 ++ "\":" ++ canonical_spec kv.1.2) =
      (List.insertionSort pairLeP (entries.filter (fun kv => !kv.2.isNull))).map
        (fun kv => "\"" ++ kv.1 ++ "\":" ++ canonical_spec kv.2) :=
    List.attach_map_val (List.insertionSort pairLeP (entries.filter (fun kv => !kv.2.isNull)))
      (fun kv => "\"" ++ kv.1 ++ "\":" ++ canonical_spec kv.2)
  rw [hattachR]
  congr 2
  have hstep1 : ((List.insertionSort strLeP (entries.map Prod.fst)).filter
        (fun k => !((entries.lookup k).getD Json.null).isNull)).map
      (fun k => "\"" ++ k ++ "\":" ++
        (((entries.map (fun kv => (kv.1, canonical_json kv.2))).lookup k).getD "")) =
      (((List.insertionSort strLeP (entries.map Prod.fst)).filter
          (fun k => !((entries.lookup k).getD Json.null).isNull)).map
        (fun k => (k, (entries.lookup k).getD Json.null))).map
      (fun kv => "\"" ++ kv.1 ++ "\":" ++ canonical_json kv.2) := by
    rw [List.map_map]
    apply List.map_congr_left
    intro k hk
    have hk1 : k ∈ entries.map Prod.fst :=
      (List.perm_insertionSort strLeP _).subset (List.mem_of_mem_filter hk)
    obtain ⟨v, hv⟩ := lookup_isSome_of_mem entries k hk1
    rw [lookup_map_value, hv]
    simp only [Function.comp_apply]
    rw [hv]
    rfl
  rw [hstep1, sorted_keys_filter_map_eq entries hnd]
  congr 1
  apply List.map_congr_left
  intro kv hkv
  have hmem : kv ∈ entries :=
    List.mem_of_mem_filter ((List.perm_insertionSort pairLeP _).subset hkv)
  rw [hih kv hmem]

/-- The code's canonical encoder refines the specification's: on every value
whose objects have pairwise-distinct keys (to any sufficient fuel depth),
the two produce the same byte string. -/
theorem canonical_json_eq_canonical_spec :
    ∀ (fuel : Nat) (j : Json), jsonWf fuel j = true → canonical_json j = canonical_spec j := by
  intro fuel
  induction fuel with
  | zero =>
    intro j h
    simp [jsonWf] at h
  | succ fuel ih =>
    intro j h
    cases j with
    | null => simp [canonical_json, canonical_spec]
    | bool b => simp [canonical_json, canonical_spec]
    | num n => simp [canonical_json, canonical_spec]
    | str s => simp [canonical_json, canonical_spec]
    | arr items =>
      have hall : ∀ x ∈ items, jsonWf fuel x = true := by
        simpa [jsonWf, List.all_eq_true] using h
      exact canonical_json_arr_eq items (fun x hx => ih x (hall x hx))
    | obj entries =>
      have h2 : (entries.map Prod.fst).Nodup ∧
          ∀ kv ∈ entries, jsonWf fuel kv.2 = true := by
        simpa [jsonWf, List.all_eq_true] using h
      exact canonical_json_obj_eq entries h2.1
        (fun kv hkv => ih kv.2 (h2.2 kv hkv))

/-- Claim C8: the canonical encoding sorts object keys lexicographically at
every nesting level, omits null-valued keys, and preserves array order —
stated as refinement of the specification's recursive sort-and-filter
encoder on every well-formed value — and the canonical encoding of the
object with entries b:1, a:null, c:"x" is exactly the expected byte
string. -/
theorem c8_canonical_json_matches_spec :
    (∀ (fuel : Nat) (j : Json), jsonWf fuel j = true →
      canonical_json j = canonical_spec j) ∧
    canonical_json (Json.obj [("b", Json.num 1), ("a", Json.null), ("c", Json.str "x")]) =
      "\x7b\"b\":1,\"c\":\"x\"\x7d" := by
  refine ⟨canonical_json_eq_canonical_spec, ?_⟩
  simp only [canonical_json]
  simp [List.insertionSort, List.orderedInsert, strLeP, strLe, lexLeChars,
    List.attach, List.attachWith, List.lookup, Json.isNull, escapeJson, replaceChar]
  simp [canonical_json, escapeJson, replaceChar]
  rfl

/-- Witness for claim C8: the example object is well formed at fuel 2, and
the refinement applies to it. -/
theorem c8_canonical_json_matches_spec_witness :
    jsonWf 2 (Json.obj [("b", Json.num 1), ("a", Json.null), ("c", Json.str "x")]) = true ∧
    canonical_json (Json.obj [("b", Json.num 1), ("a", Json.null), ("c", Json.str "x")]) =
      canonical_spec (Json.obj [("b", Json.num 1), ("a", Json.null), ("c", Json.str "x")]) :=
  ⟨by decide,
   c8_canonical_json_matches_spec.1 2
     (Json.obj [("b", Json.num 1), ("a", Json.null), ("c", Json.str "x")]) (by decide)⟩
